import Mathlib

/-!
# Verification of the `Lazy` sequence module (`src/lazy.js`)

Shallow embedding of the canonical `Lazy` class (the module that tracks the
`infinite` tag).  A `Lazy` object stores a restartable producer: a
zero-argument generator function that yields the elements of the sequence.

Generators may be driven forever (e.g. `naturals`), so a cursor is modelled
by fuel-indexed approximation: `run fuel` returns the list of elements the
cursor has yielded after the ultimate source was allowed `fuel` production
steps, together with a flag telling whether the generator has finished
(executed `return` or fallen off the end).  Every combinator of the source
transforms the origin's approximation exactly the way its generator body
transforms the origin's yield stream, so for any finite observation there is
a fuel bound at which the model agrees with the JavaScript cursor.

JavaScript `undefined` is modelled by `Option.none` where a claim depends on
it (missing callback arguments, `head` of an empty sequence, the omitted
`infinite` argument of `cons`).
-/

/-- Errors thrown by `src/lazy.js`.  `TypeError` and `RangeError` are the
host classes; `InfiniteSequenceError` is declared at the top of the file
(line 3).  No other error class exists in the module. -/
inductive JSError where
  | typeError
  | rangeError
  | infiniteSequenceError
deriving DecidableEq, Repr

/-- The `Lazy` class (src/lazy.js lines 15-24).  `run` is the semantics of
one fresh cursor obtained from the stored producer, indexed by source fuel;
`infinite` is the `infinite` property fixed by the constructor. -/
structure Lazy (T : Type) where
  run : Nat → List T × Bool
  infinite : Bool

namespace Lazy

/-- A `Lazy` wrapping a producer over a finite iterable (as built by
`Lazy.from(() => xs)` / `new Lazy(function*(){ yield* xs })` for a concrete
array `xs`): every cursor yields exactly `xs` and finishes; the `infinite`
argument is left at its constructor default `false`. -/
def ofList {T : Type} (xs : List T) : Lazy T :=
  ⟨fun _ => (xs, true), false⟩

/-- `Lazy.naturals(n)` (src/lazy.js lines 199-215): yields `n, n+1, n+2, …`
for ever, `infinite` tag `true`.  Under fuel `f` the cursor has yielded the
first `f` values and is never finished.  (The `RangeError` branch for a
negative start is vacuous over `Nat`.) -/
def naturals (n : Nat) : Lazy Nat :=
  ⟨fun f => ((List.range f).map (n + ·), false), true⟩

/-- `map(cb, ctx)` (src/lazy.js lines 62-72).  The generator body is
`for (let k of orig) yield cb.call(ctx, k);` — the callback is invoked with
the single argument `k`, so a callback that declares an index parameter
receives `undefined` there: the callback is modelled with an explicit
`Option Nat` index slot and the code always supplies `none`.  Result tag:
`orig.infinite`. -/
def map {T U : Type} (l : Lazy T) (cb : T → Option Nat → U) : Lazy U :=
  ⟨fun f => (((l.run f).1).map (fun k => cb k none), (l.run f).2), l.infinite⟩

/-- `filter(pred, ctx)` (src/lazy.js lines 74-86).  Generator body:
`for (let k of orig) if (pred.call(ctx, k)) yield k;` — again the predicate
is called with the element only, so its index slot receives `none`.
Result tag: `orig.infinite`. -/
def filter {T : Type} (l : Lazy T) (p : T → Option Nat → Bool) : Lazy T :=
  ⟨fun f => (((l.run f).1).filter (fun k => p k none), (l.run f).2), l.infinite⟩

/-- `take(n)` (src/lazy.js lines 106-119).  The generator yields origin
elements while `i++ < n` and executes `return` on the first element past the
bound, so it is finished as soon as the origin has yielded `n+1` elements
(or the origin itself finished).  Result tag: always `false`. -/
def take {T : Type} (l : Lazy T) (n : Nat) : Lazy T :=
  ⟨fun f =>
    (((l.run f).1).take n, (l.run f).2 || decide (n < ((l.run f).1).length)),
   false⟩

/-- `drop(n)` (src/lazy.js lines 120-133): skips the first `n` origin
elements (`continue`) and yields the rest.  Result tag: `orig.infinite`. -/
def drop {T : Type} (l : Lazy T) (n : Nat) : Lazy T :=
  ⟨fun f => (((l.run f).1).drop n, (l.run f).2), l.infinite⟩

/-- `takeWhile(pred)` (src/lazy.js lines 135-151): yields while
`take = take && pred(k)` stays true and executes `return` at the first
element on which `pred` is false (so it is finished as soon as the origin
yields a failing element).  The predicate is invoked as `pred(k)`, element
only.  Result tag: always `false` (the source comment on line 150 itself
notes this is wrong if `pred` never returns false). -/
def takeWhile {T : Type} (l : Lazy T) (p : T → Bool) : Lazy T :=
  ⟨fun f =>
    (((l.run f).1).takeWhile p,
     (l.run f).2 ||
       decide ((((l.run f).1).takeWhile p).length < ((l.run f).1).length)),
   false⟩

/-- `dropWhile(pred)` (src/lazy.js lines 158-174): skips while
`drop = drop && pred(k)` stays true, then yields every remaining element
(including the first failing one).  Result tag: `orig.infinite`. -/
def dropWhile {T : Type} (l : Lazy T) (p : T → Bool) : Lazy T :=
  ⟨fun f => (((l.run f).1).dropWhile p, (l.run f).2), l.infinite⟩

/-- `get head()` (src/lazy.js lines 44-47): `let [ head ] = this.take(1);`
— array destructuring pulls one element from a fresh `take(1)` cursor and
returns it, or `undefined` (`none`) when the sequence is empty.  No error is
thrown on an empty sequence. -/
def head {T : Type} (l : Lazy T) (f : Nat) : Option T :=
  (((l.take 1).run f).1).head?

/-- `get tail()` (src/lazy.js lines 49-51): `this.drop(1)`. -/
def tail {T : Type} (l : Lazy T) : Lazy T :=
  l.drop 1

/-- `forEach(cb, ctx)` (src/lazy.js lines 53-60).  Throws
`InfiniteSequenceError` before the loop when `this.infinite` is true; else
invokes the callback once per element in order.  The result records the
elements visited (the callback receives exactly these, in this order) and
the number of elements consumed — `0` in the error case, since the guard
runs before any cursor is created. -/
def forEach {T : Type} (l : Lazy T) (f : Nat) : Except JSError (List T) × Nat :=
  if l.infinite then (.error .infiniteSequenceError, 0)
  else ((.ok (l.run f).1), ((l.run f).1).length)

/-- `reduce(f)` (src/lazy.js lines 88-104).  Throws
`InfiniteSequenceError` (after the `typeof` check, before any iteration)
when `this.infinite` is true; else takes `prev = this.head` — `undefined`
(`none`) when the sequence is empty — and folds `f(prev, current)` over a
fresh cursor of `this.tail`.  On an empty sequence the loop body never runs
and `undefined` is returned; no error is thrown.  The second component
records the elements traversed (`head` element, then the tail elements), in
order. -/
def reduce {T : Type} (g : T → T → T) (l : Lazy T) (f : Nat) :
    Except JSError (Option T) × List T :=
  if l.infinite then (.error .infiniteSequenceError, [])
  else
    match l.head f with
    | none => (.ok none, [])
    | some hd =>
      let tl := ((l.tail).run f).1
      (.ok (some (List.foldl g hd tl)), hd :: tl)

end Lazy

/-- An argument position that accepts "a Sequence or an iterable"
(`Lazy.cons`'s second parameter, `Lazy.zip`'s parameters).  `seq` is a
`Lazy` instance, `arr` a native array, `noIter` any value whose
`Symbol.iterator` property is `undefined`. -/
inductive SeqInput (T : Type) where
  | seq (l : Lazy T)
  | arr (xs : List T)
  | noIter

namespace SeqInput

/-- `b[Symbol.iterator] !== undefined`: both `Lazy` objects (the property is
installed by the constructor) and native arrays expose the iteration
capability. -/
def hasSI {T : Type} : SeqInput T → Bool
  | .seq _ => true
  | .arr _ => true
  | .noIter => false

/-- Reading the `infinite` property of an input value: defined on a `Lazy`,
`undefined` (`none`) on a native array or any other value. -/
def inf {T : Type} : SeqInput T → Option Bool
  | .seq l => some l.infinite
  | _ => none

/-- `b instanceof Lazy`. -/
def isLazy {T : Type} : SeqInput T → Bool
  | .seq _ => true
  | _ => false

/-- `yield* b` / a properly receiver-bound iteration of the input: the
cursor semantics of a `Lazy`, or the elements of a native array (finished).
(`yield*` performs `GetIterator(b)` with `b` as receiver, so arrays iterate
correctly here — contrast `detachedCursor` below.) -/
def elems {T : Type} : SeqInput T → Nat → List T × Bool
  | .seq l, f => l.run f
  | .arr xs, _ => (xs, true)
  | .noIter, _ => ([], true)

/-- `var sa = a[Symbol.iterator]; … var ia = sa();` (src/lazy.js lines
219, 226): `Lazy.zip` stores the `Symbol.iterator` method in a local and
later calls it with no receiver.  Class bodies are strict-mode code, so the
call sees `this = undefined`.  For a `Lazy` the stored value is the closure
installed by the constructor, which never reads `this`, so the call
succeeds; for a native array it is `Array.prototype.values`, whose first
step `ToObject(this)` throws `TypeError` on `undefined`. -/
def detachedCursor {T : Type} : SeqInput T → Nat → Except JSError (List T × Bool)
  | .seq l, f => .ok (l.run f)
  | .arr _, _ => .error .typeError
  | .noIter, _ => .error .typeError

end SeqInput

/-- JavaScript `x && y` over values that are `undefined` (`none`) or
booleans: returns `x` when `x` is falsy (`undefined` or `false`), else `y`. -/
def jsAnd : Option Bool → Option Bool → Option Bool
  | none, _ => none
  | some false, _ => some false
  | some true, y => y

namespace Lazy

/-- `Lazy.cons(a, b, infinite)` (src/lazy.js lines 185-197).  Throws
`TypeError` when `b[Symbol.iterator]` is `undefined`; otherwise builds
`function*() { yield a; yield* b; }`.  The tag: when the `infinite`
argument is `undefined` (`none` — not supplied) and `b instanceof Lazy`, it
is replaced by `b.infinite`; the constructor's default parameter then turns
a still-`undefined` tag into `false`. -/
def cons {T : Type} (a : T) (b : SeqInput T) (inf : Option Bool) :
    Except JSError (Lazy T) :=
  if b.hasSI then
    let inf2 := if inf = none && b.isLazy then b.inf else inf
    .ok ⟨fun f => (a :: (b.elems f).1, (b.elems f).2), inf2.getD false⟩
  else .error .typeError

/-- The `infinite` argument `Lazy.zip` passes to the constructor:
`a.infinite && b.infinite`, with the constructor default applied when the
result is `undefined` (any non-`Lazy` input has `undefined` `infinite`). -/
def zipTag {A B : Type} (a : SeqInput A) (b : SeqInput B) : Bool :=
  (jsAnd a.inf b.inf).getD false

/-- `Lazy.zip(a, b)`, construction phase (src/lazy.js lines 217-224, 236):
throws `TypeError` when either argument lacks `Symbol.iterator`; otherwise
returns the new `Lazy` — observed here through its `infinite` tag. -/
def zipCtor {A B : Type} (a : SeqInput A) (b : SeqInput B) :
    Except JSError Bool :=
  if a.hasSI && b.hasSI then .ok (zipTag a b) else .error .typeError

/-- A cursor over `Lazy.zip(a, b)`'s result (src/lazy.js lines 225-235).
The generator first creates both cursors through the detached
`Symbol.iterator` calls (`a`'s first — see `SeqInput.detachedCursor`), then
repeatedly pulls one element from each side and yields the pair, executing
`return` as soon as either side reports done.  The construction-time
`TypeError` for an input without `Symbol.iterator` is re-checked first,
mirroring that the generator is only reachable after construction
succeeded. -/
def zipRun {A B : Type} (a : SeqInput A) (b : SeqInput B) (f : Nat) :
    Except JSError (List (A × B) × Bool) :=
  if a.hasSI && b.hasSI then
    match a.detachedCursor f, b.detachedCursor f with
    | .error e, _ => .error e
    | .ok _, .error e => .error e
    | .ok (xs, da), .ok (ys, db) =>
      .ok (xs.zip ys,
           (da && decide (xs.length ≤ ys.length)) ||
           (db && decide (ys.length ≤ xs.length)))
  else .error .typeError

end Lazy

/-- The Fibonacci sequence of src/test.js lines 32-37:
`f(a, b) = Lazy.cons(a, Lazy.from(() => f(b, a + b)), true)` — `cons`
yields `a` and then defers to a `Lazy.from` wrapper whose producer invokes
`f(b, a + b)` only when the cursor actually advances.  One unit of fuel
permits one forcing of the deferred wrapper, so the cursor under fuel `f`
has yielded the first `f` Fibonacci numbers and is never finished. -/
def fibsRun (a b : Nat) : Nat → List Nat
  | 0 => []
  | f + 1 => a :: fibsRun b (a + b) f

/-- `fibs2()` of src/test.js: the `Lazy` built by `f(1, 1)`; the explicit
third argument `true` of `cons` makes its tag `true`. -/
def fibs : Lazy Nat :=
  ⟨fun f => (fibsRun 1 1 f, false), true⟩

/-!
## Instrumented generators

`take`, `takeWhile` and `dropWhile` re-traced element by element, recording
in addition how the generator interacts with its origin: `takeGo` counts the
elements pulled from the origin's cursor, `takeWhileGo`/`dropWhileGo` count
the invocations of the predicate.  The input list is the stream of elements
the origin's cursor yields (a finite prefix suffices for any finite
observation); each constructor step is one iteration of the `for…of` loop
of the corresponding generator body.
-/

/-- The loop of `take(n)`'s generator (src/lazy.js lines 109-117), with the
loop counter `i` explicit.  Each list constructor consumed is one `for…of`
iteration, i.e. one element pulled from the origin's cursor; the second
component counts those pulls.  `if (i++ < n)` yields the element, else the
generator returns — after having already pulled (and discarded) the
element. -/
def takeGo {T : Type} (n : Nat) (i : Nat) : List T → List T × Nat
  | [] => ([], 0)
  | k :: rest =>
    if i < n then
      let r := takeGo n (i + 1) rest
      (k :: r.1, r.2 + 1)
    else ([], 1)

/-- `take(n)`'s generator started on a fresh cursor (`i = 0`). -/
def takeRun {T : Type} (n : Nat) (xs : List T) : List T × Nat :=
  takeGo n 0 xs

/-- The loop of `takeWhile(pred)`'s generator (src/lazy.js lines 140-149),
with the `take` flag explicit.  `take = take && pred(k)` invokes the
predicate only when `take` is still true (`&&` short-circuits); the second
component counts predicate invocations.  When the flag drops to false the
generator returns. -/
def takeWhileGo {T : Type} (p : T → Bool) (tk : Bool) : List T → List T × Nat
  | [] => ([], 0)
  | k :: rest =>
    let tk2 := tk && p k
    let calls := if tk then 1 else 0
    if tk2 then
      let r := takeWhileGo p tk2 rest
      (k :: r.1, r.2 + calls)
    else ([], calls)

/-- `takeWhile(pred)`'s generator started on a fresh cursor (`take = true`). -/
def takeWhileRun {T : Type} (p : T → Bool) (xs : List T) : List T × Nat :=
  takeWhileGo p true xs

/-- The loop of `dropWhile(pred)`'s generator (src/lazy.js lines 163-172),
with the `drop` flag explicit.  `drop = drop && pred(k)` invokes the
predicate only while `drop` is true; once it drops to false every remaining
element is yielded without testing the predicate again.  The second
component counts predicate invocations. -/
def dropWhileGo {T : Type} (p : T → Bool) (dr : Bool) : List T → List T × Nat
  | [] => ([], 0)
  | k :: rest =>
    let dr2 := dr && p k
    let calls := if dr then 1 else 0
    if dr2 then
      let r := dropWhileGo p dr2 rest
      (r.1, r.2 + calls)
    else
      let r := dropWhileGo p dr2 rest
      (k :: r.1, r.2 + calls)

/-- `dropWhile(pred)`'s generator started on a fresh cursor (`drop = true`). -/
def dropWhileRun {T : Type} (p : T → Bool) (xs : List T) : List T × Nat :=
  dropWhileGo p true xs

/-!
## Supporting lemmas
-/

theorem takeGo_spec {T : Type} (n : Nat) :
    ∀ (xs : List T) (i : Nat), i ≤ n → n - i < xs.length →
      takeGo n i xs = (xs.take (n - i), (n - i) + 1)
  | [], _, _, hlen => by simp at hlen
  | k :: rest, i, hle, hlen => by
    by_cases hi : i < n
    · have h2 : n - (i + 1) < rest.length := by
        simp only [List.length_cons] at hlen; omega
      have ih := takeGo_spec n rest (i + 1) hi h2
      have hni : n - i = (n - (i + 1)) + 1 := by omega
      simp only [takeGo, if_pos hi, ih, hni, List.take_succ_cons]
    · have : n - i = 0 := by omega
      simp [takeGo, hi, this]

theorem takeWhileGo_true {T : Type} (p : T → Bool) :
    ∀ xs : List T,
      takeWhileGo p true xs =
        (xs.takeWhile p, min ((xs.takeWhile p).length + 1) xs.length)
  | [] => rfl
  | k :: rest => by
    have ih := takeWhileGo_true p rest
    by_cases hp : p k
    · simp [takeWhileGo, hp, ih, List.takeWhile_cons]
      omega
    · simp [takeWhileGo, hp, List.takeWhile_cons]

theorem dropWhileGo_false {T : Type} (p : T → Bool) :
    ∀ xs : List T, dropWhileGo p false xs = (xs, 0)
  | [] => rfl
  | k :: rest => by
    simp [dropWhileGo, dropWhileGo_false p rest]

theorem dropWhileGo_true {T : Type} (p : T → Bool) :
    ∀ xs : List T,
      dropWhileGo p true xs =
        (xs.dropWhile p, min ((xs.takeWhile p).length + 1) xs.length)
  | [] => rfl
  | k :: rest => by
    have ih := dropWhileGo_true p rest
    by_cases hp : p k
    · simp [dropWhileGo, hp, ih, List.dropWhile_cons, List.takeWhile_cons]
      omega
    · simp [dropWhileGo, hp, dropWhileGo_false p rest, List.dropWhile_cons,
        List.takeWhile_cons]

/-!
## Claim theorems
-/

/-- Claim C1 (confirmed): on every Sequence whose unbounded (`infinite`) tag
is true, `forEach` and `reduce` (given a valid function) throw
`InfiniteSequenceError` having consumed zero elements; the same operations
on `naturals(0).take(5)` succeed and traverse exactly the five elements
`0,1,2,3,4` (and the `take(5)` cursor indeed finishes). -/
theorem unbounded_guard_forEach_reduce {T : Type} (l : Lazy T)
    (g : T → T → T) (f : Nat) (h : l.infinite = true) :
    Lazy.forEach l f = (.error .infiniteSequenceError, 0) ∧
    Lazy.reduce g l f = (.error .infiniteSequenceError, []) ∧
    (Lazy.naturals 0).infinite = true ∧
    ((Lazy.naturals 0).take 5).run 6 = ([0, 1, 2, 3, 4], true) ∧
    Lazy.forEach ((Lazy.naturals 0).take 5) 6 = (.ok [0, 1, 2, 3, 4], 5) ∧
    Lazy.reduce (· + ·) ((Lazy.naturals 0).take 5) 6 =
      (.ok (some 10), [0, 1, 2, 3, 4]) := by
  refine ⟨?_, ?_, rfl, by decide, rfl, rfl⟩
  · simp [Lazy.forEach, h]
  · simp [Lazy.reduce, h]

/-- Witness for C1 at the concrete unbounded sequence `naturals(0)`. -/
theorem unbounded_guard_forEach_reduce_witness :
    (Lazy.naturals 0).infinite = true ∧
    Lazy.forEach (Lazy.naturals 0) 3 = (.error .infiniteSequenceError, 0) :=
  ⟨rfl, (unbounded_guard_forEach_reduce (Lazy.naturals 0) (· + ·) 3 rfl).1⟩

/-- Claim C2 (counterexample): on the empty sequence, `head` evaluates to
`undefined` (`none`) and `reduce` returns normally with `undefined` — the
`.ok` result shows no error of any kind is thrown, while the claim says
both fail with `EmptySequenceError` (a class that does not exist anywhere
in src/lazy.js). -/
theorem empty_head_reduce_no_error_cex :
    Lazy.head (Lazy.ofList ([] : List Nat)) 0 = none ∧
    Lazy.reduce (· + ·) (Lazy.ofList ([] : List Nat)) 0 = (.ok none, []) :=
  ⟨rfl, rfl⟩

/-- Claim C2 (amended): on every Sequence with no elements and unbounded
tag false, `head` returns `undefined` (`none`) and `reduce` returns
`undefined` normally; no error is raised. -/
theorem empty_head_reduce_return_undefined {T : Type} (g : T → T → T)
    (l : Lazy T) (f : Nat) (h1 : l.infinite = false)
    (h2 : (l.run f).1 = []) :
    Lazy.head l f = none ∧ Lazy.reduce g l f = (.ok none, []) := by
  have hh : Lazy.head l f = none := by
    simp [Lazy.head, Lazy.take, h2]
  exact ⟨hh, by simp [Lazy.reduce, h1, hh]⟩

/-- Witness for the amended C2 at the concrete empty sequence. -/
theorem empty_head_reduce_return_undefined_witness :
    (Lazy.ofList ([] : List Nat)).infinite = false ∧
    ((Lazy.ofList ([] : List Nat)).run 0).1 = [] ∧
    Lazy.head (Lazy.ofList ([] : List Nat)) 0 = none ∧
    Lazy.reduce (· + ·) (Lazy.ofList ([] : List Nat)) 0 = (.ok none, []) :=
  ⟨rfl, rfl,
    (empty_head_reduce_return_undefined (· + ·) (Lazy.ofList []) 0 rfl rfl).1,
    (empty_head_reduce_return_undefined (· + ·) (Lazy.ofList []) 0 rfl rfl).2⟩

/-- Claim C3 (code bug): `zip` accepts a native array at construction time
(the `Symbol.iterator` presence check passes and the result's tag is
`false`, as the claim states), but iterating the zip of `naturals(0)` with
the array `[1,2,3]` throws `TypeError` instead of yielding 3 pairs: the
generator calls the stored `Symbol.iterator` method detached from its
receiver.  With two `Lazy` inputs (whose producers ignore `this`) zip does
pair positionally and stop at the shorter side; the tag is `true` for two
unbounded inputs and construction fails with `TypeError` for an input
without the iteration capability. -/
theorem zip_array_iteration_type_error :
    Lazy.zipCtor (.seq (Lazy.naturals 0)) (.arr ([1, 2, 3] : List Nat)) =
      .ok false ∧
    Lazy.zipRun (.seq (Lazy.naturals 0)) (.arr ([1, 2, 3] : List Nat)) 10 =
      .error .typeError ∧
    Lazy.zipRun (.seq (Lazy.naturals 0))
        (.seq (Lazy.ofList ([1, 2, 3] : List Nat))) 10 =
      .ok ([(0, 1), (1, 2), (2, 3)], true) ∧
    Lazy.zipCtor (.seq (Lazy.naturals 0)) (.seq (Lazy.naturals 5)) =
      .ok true ∧
    Lazy.zipCtor (.seq (Lazy.naturals 0)) (SeqInput.noIter : SeqInput Nat) =
      .error .typeError :=
  ⟨rfl, rfl, rfl, rfl, rfl⟩

/-- Claim C4 (counterexample): a `map` callback that returns its index
argument observes `undefined` (`none`) at every position — the canonical
module invokes the callback with the element only — and a `filter`
predicate that tests whether an index was passed rejects every element;
the claim would require indices `some 0, some 1`. -/
theorem map_filter_index_not_passed_cex :
    (((Lazy.ofList [10, 20]).map (fun _ i => i)).run 0).1 = [none, none] ∧
    ([none, none] : List (Option Nat)) ≠ [some 0, some 1] ∧
    (((Lazy.ofList [10, 20]).filter (fun _ i => i.isSome)).run 0).1 = [] :=
  ⟨rfl, by decide, rfl⟩

/-- Claim C4 (amended): for every Sequence and every cursor, the `map` and
`filter` callbacks are invoked with a single argument (the element); the
index parameter is never passed, so a callback reading it sees `undefined`
at every element. -/
theorem map_filter_index_undefined {T : Type} (l : Lazy T) (f : Nat) :
    ((l.map (fun _ i => i)).run f).1 =
      List.replicate ((l.run f).1).length none ∧
    ((l.filter (fun _ i => i.isSome)).run f).1 = [] ∧
    ((l.filter (fun _ i => !i.isSome)).run f).1 = (l.run f).1 := by
  refine ⟨?_, ?_, ?_⟩
  · show ((l.run f).1).map (fun _ => (none : Option Nat)) = _
    simp
  · show ((l.run f).1).filter (fun _ => false) = []
    simp
  · show ((l.run f).1).filter (fun _ => true) = _
    simp

/-- Claim C5 (confirmed): for every Sequence and every argument, the
Sequences returned by `take(n)` and `takeWhile(p)` carry unbounded tag
`false` — unconditionally, in particular for an unbounded origin and a
predicate that never returns false. -/
theorem take_takeWhile_tag_always_false {T : Type} (l : Lazy T) (n : Nat)
    (p : T → Bool) :
    (l.take n).infinite = false ∧ (l.takeWhile p).infinite = false :=
  ⟨rfl, rfl⟩

/-- Claim C6 (confirmed): `cons` throws `TypeError` when its second
argument lacks the iteration capability; the result's tag is the explicit
override when supplied, else the origin's tag for a `Lazy` origin, else
`false`; and `cons(1, [2,3,4,5])` materializes to `[1,2,3,4,5]` with tag
`false`. -/
theorem cons_type_error_tag_and_elements :
    (∀ (a : Nat) (inf : Option Bool),
        Lazy.cons a SeqInput.noIter inf = .error .typeError) ∧
    (∀ (a : Nat) (l : Lazy Nat) (v : Bool),
        (Lazy.cons a (.seq l) (some v)).map Lazy.infinite = .ok v) ∧
    (∀ (a : Nat) (xs : List Nat) (v : Bool),
        (Lazy.cons a (.arr xs) (some v)).map Lazy.infinite = .ok v) ∧
    (∀ (a : Nat) (l : Lazy Nat),
        (Lazy.cons a (.seq l) none).map Lazy.infinite = .ok l.infinite) ∧
    (∀ (a : Nat) (xs : List Nat),
        (Lazy.cons a (.arr xs) none).map Lazy.infinite = .ok false) ∧
    (Lazy.cons (1 : Nat) (.arr [2, 3, 4, 5]) none).map Lazy.infinite =
      .ok false ∧
    (Lazy.cons (1 : Nat) (.arr [2, 3, 4, 5]) none).map (fun c => c.run 0) =
      .ok ([1, 2, 3, 4, 5], true) :=
  ⟨fun _ _ => rfl, fun _ _ _ => rfl, fun _ _ _ => rfl, fun _ _ => rfl,
    fun _ _ => rfl, rfl, rfl⟩

/-- Claim C7 (confirmed): for a Sequence with at least `n` elements, the
`n` elements yielded by `take(n)`, concatenated with the first `m` elements
drawn from `drop(n)` over the same origin, equal the first `n + m` elements
of the origin. -/
theorem take_drop_complementarity {T : Type} (l : Lazy T) (n m f : Nat)
    (_h : n ≤ ((l.run f).1).length) :
    ((l.take n).run f).1 ++ (((l.drop n).run f).1).take m =
      ((l.run f).1).take (n + m) :=
  (List.take_add (l.run f).1 n m).symm

/-- Witness for C7 on a concrete 4-element sequence with n = 2, m = 1. -/
theorem take_drop_complementarity_witness :
    2 ≤ (((Lazy.ofList [10, 20, 30, 40]).run 0).1).length ∧
    (((Lazy.ofList [10, 20, 30, 40]).take 2).run 0).1 ++
        ((((Lazy.ofList [10, 20, 30, 40]).drop 2).run 0).1).take 1 =
      (((Lazy.ofList [10, 20, 30, 40]).run 0).1).take (2 + 1) :=
  ⟨by decide,
    take_drop_complementarity (Lazy.ofList [10, 20, 30, 40]) 2 1 0 (by decide)⟩

/-- Claim C8 (confirmed): the self-referential Fibonacci sequence of
src/test.js, bounded by `takeWhile(n < 4000000)`, filtered to even
elements and folded with addition by `reduce`, evaluates to `4613732`
(traversing the eleven even Fibonacci numbers below four million). -/
theorem fibs_takeWhile_filter_reduce_value :
    Lazy.reduce (· + ·)
      ((fibs.takeWhile fun n => decide (n < 4000000)).filter
        fun n _ => decide (n % 2 = 0)) 40 =
      (.ok (some 4613732),
       [2, 8, 34, 144, 610, 2584, 10946, 46368, 196418, 832040, 3524578]) := by
  rfl

/-- Claim C9 (confirmed): exhausting a cursor over `take(n)` of an origin
with more than `n` elements pulls `n + 1` elements from the origin's
cursor, yielding the first `n` and discarding the extra one; for `n = 0`
over a non-empty origin this still computes the origin's first element. -/
theorem take_consumes_extra_element {T : Type} (n : Nat) (xs : List T)
    (h : n < xs.length) :
    takeRun n xs = (xs.take n, n + 1) := by
  have hs := takeGo_spec n xs 0 (Nat.zero_le n) (by simpa using h)
  simpa [takeRun] using hs

/-- Witness for C9: `take(0)` over a non-empty origin yields nothing but
still consumes one element. -/
theorem take_consumes_extra_element_witness :
    0 < ([7, 8] : List Nat).length ∧
    takeRun 0 ([7, 8] : List Nat) = ([], 1) :=
  ⟨by decide, take_consumes_extra_element 0 [7, 8] (by decide)⟩

/-- Claim C10 (confirmed): a `takeWhile(p)` cursor invokes the predicate
exactly once per element it consumes and stops (yield list = the passing
prefix, predicate call count = position of the first failure + 1, capped by
the origin's length); a `dropWhile(p)` cursor has the same call count —
after the first `false` the short-circuited flag prevents any further
invocation — and emits the first failing element and everything after it. -/
theorem takeWhile_dropWhile_predicate_calls {T : Type} (p : T → Bool)
    (xs : List T) :
    takeWhileRun p xs =
      (xs.takeWhile p, min ((xs.takeWhile p).length + 1) xs.length) ∧
    dropWhileRun p xs =
      (xs.dropWhile p, min ((xs.takeWhile p).length + 1) xs.length) ∧
    (takeWhileRun p xs).2 ≤ xs.length ∧
    (dropWhileRun p xs).2 ≤ xs.length := by
  have h1 := takeWhileGo_true p xs
  have h2 := dropWhileGo_true p xs
  refine ⟨h1, h2, ?_, ?_⟩ <;>
    simp [takeWhileRun, dropWhileRun, h1, h2]
